import Mathlib

/-!
Verification development for the pr-insight repository.

Each Python function referenced by the specification is shallowly embedded as an
executable Lean definition, translated statement-by-statement from the source
files under `pr_insight/`.  Library primitives of the Python runtime
(`str.split`, `str.replace`, `base64.b64decode`, UTF-8 codecs, truthiness) are
modelled explicitly below so that every definition is executable and
kernel-reducible.
-/

namespace PrInsight

/-! ## Python string/runtime primitives -/

/-- Truthiness of an optional string, as Python evaluates `if x:` for a value
that is either `None` or a `str`: `None` and `""` are falsy. -/
def truthyOpt : Option String → Bool
  | none => false
  | some s => s ≠ ""

/-- `pat` is a prefix of `s` (on explicit character lists). -/
def isPrefixList : List Char → List Char → Bool
  | [], _ => true
  | _ :: _, [] => false
  | p :: ps, c :: cs => p == c && isPrefixList ps cs

/-- `listContainsSub s pat = true` iff `pat` occurs as a contiguous substring of
`s`; models Python's `pat in s`. -/
def listContainsSub : List Char → List Char → Bool
  | [], pat => pat.isEmpty
  | s@(_ :: rest), pat => isPrefixList pat s || listContainsSub rest pat

/-- Python `pat in s` on strings. -/
def containsSub (s pat : String) : Bool :=
  listContainsSub s.toList pat.toList

/-- Python `str.split(sep)` on character lists (the separator is `p0 :: ps`,
always non-empty): split on non-overlapping occurrences, scanning left to
right; `acc` holds the characters of the current piece, reversed.  The `fuel`
argument only makes the recursion structural: every step consumes at least one
character, so with `fuel = s.length` the `0` case is unreachable. -/
def splitOnListAux (p0 : Char) (ps : List Char) : Nat → List Char → List Char → List (List Char)
  | _, [], acc => [acc.reverse]
  | 0, s, acc => [acc.reverse ++ s]
  | fuel + 1, s@(c :: rest), acc =>
    if isPrefixList (p0 :: ps) s then
      acc.reverse :: splitOnListAux p0 ps fuel (rest.drop ps.length) []
    else
      splitOnListAux p0 ps fuel rest (c :: acc)

/-- Python `str.split(sep)` (every call site passes a non-empty separator;
Python raises `ValueError` on an empty one). -/
def pySplit (s sep : String) : List String :=
  match sep.toList with
  | [] => [s]
  | p0 :: ps =>
    (splitOnListAux p0 ps s.toList.length s.toList []).map (fun cs => String.mk cs)

/-- Python `str.replace(pat, rep)` on character lists (the pattern is
`p0 :: ps`, always non-empty): replace all non-overlapping occurrences, left
to right.  `fuel` as in `splitOnListAux`. -/
def replaceSubList (p0 : Char) (ps rep : List Char) : Nat → List Char → List Char
  | _, [] => []
  | 0, s => s
  | fuel + 1, s@(c :: rest) =>
    if isPrefixList (p0 :: ps) s then
      rep ++ replaceSubList p0 ps rep fuel (rest.drop ps.length)
    else
      c :: replaceSubList p0 ps rep fuel rest

/-- Python `str.replace` (every call site passes a non-empty pattern). -/
def pyReplace (s pat rep : String) : String :=
  match pat.toList with
  | [] => s
  | p0 :: ps => String.mk (replaceSubList p0 ps rep.toList s.toList.length s.toList)

/-- ASCII lower-casing of one character, as Python `str.lower` acts on the
ASCII range (the only range exercised by the embedded code paths). -/
def charLowerAscii (c : Char) : Char :=
  if 65 ≤ c.toNat ∧ c.toNat ≤ 90 then Char.ofNat (c.toNat + 32) else c

/-- Python `str.lower()` (ASCII fragment). -/
def pyLower (s : String) : String :=
  String.mk (s.toList.map charLowerAscii)

/-- Python `str.startswith(pat)`. -/
def pyStartsWith (s pat : String) : Bool :=
  isPrefixList pat.toList s.toList

/-- Characters stripped by Python `str.strip()` with no argument. -/
def isPyWhitespace (c : Char) : Bool :=
  c == ' ' || c == '\t' || c == '\n' || c == '\r' || c == Char.ofNat 11 || c == Char.ofNat 12

/-- Python `str.strip()`. -/
def pyStrip (s : String) : String :=
  String.mk (((s.toList.dropWhile isPyWhitespace).reverse.dropWhile isPyWhitespace).reverse)

/-- Python `str()` of a list index 0 after `split`: head of a non-empty list
(`split` always returns at least one element; the default is never reached). -/
def headOrEmpty : List String → String
  | [] => ""
  | s :: _ => s

/-! ### base64 and UTF-8 (library boundary of `cli_args.py`)

`base64.b64decode` (with its default `validate=False`) discards bytes outside
the base64 alphabet other than `=`, then decodes complete quads; `bytes.decode`
is the strict UTF-8 codec.  Both are modelled on `List Nat` byte values. -/

/-- Value of a base64 alphabet byte. -/
def b64val (b : Nat) : Option Nat :=
  if 65 ≤ b ∧ b ≤ 90 then some (b - 65)        -- A-Z
  else if 97 ≤ b ∧ b ≤ 122 then some (b - 97 + 26)  -- a-z
  else if 48 ≤ b ∧ b ≤ 57 then some (b - 48 + 52)   -- 0-9
  else if b = 43 then some 62                  -- +
  else if b = 47 then some 63                  -- /
  else none

/-- Decode one base64 quad (or final partial group) of alphabet values. -/
def b64group : List Nat → List Nat
  | [a, b] => [a * 4 + b / 16]
  | [a, b, c] => [a * 4 + b / 16, (b % 16) * 16 + c / 4]
  | [a, b, c, d] => [a * 4 + b / 16, (b % 16) * 16 + c / 4, (c % 4) * 64 + d]
  | _ => []

/-- Decode a run of base64 alphabet values, quad by quad. -/
def b64decodeVals : List Nat → List Nat
  | a :: b :: c :: d :: rest => b64group [a, b, c, d] ++ b64decodeVals rest
  | leftover => b64group leftover

/-- `base64.b64decode` on a byte string: returns the decoded bytes, or a
`binascii.Error` message.  Per CPython, bytes outside the alphabet and not `=`
are discarded first; the data length must then not be 1 mod 4 and the total
kept length (data plus padding) must be a multiple of 4. -/
def b64decodeBytes (bytes : List Nat) : Except String (List Nat) :=
  let kept := bytes.filter (fun b => (b64val b).isSome || b = 61)  -- 61 = '='
  let data := kept.takeWhile (fun b => b ≠ 61)
  if data.length % 4 = 1 then
    .error "Invalid base64-encoded string: number of data characters cannot be 1 more than a multiple of 4"
  else if kept.length % 4 ≠ 0 then
    .error "Incorrect padding"
  else
    .ok (b64decodeVals (data.filterMap b64val))

/-- UTF-8 encoding of one character (Python `str.encode()`), as byte values. -/
def utf8EncodeChar (c : Char) : List Nat :=
  let n := c.toNat
  if n < 128 then [n]
  else if n < 2048 then [192 + n / 64, 128 + n % 64]
  else if n < 65536 then [224 + n / 4096, 128 + (n / 64) % 64, 128 + n % 64]
  else [240 + n / 262144, 128 + (n / 4096) % 64, 128 + (n / 64) % 64, 128 + n % 64]

/-- Python `str.encode()` (UTF-8). -/
def utf8Encode (s : String) : List Nat :=
  s.toList.flatMap utf8EncodeChar

/-- Is `b` a UTF-8 continuation byte? -/
def isCont (b : Nat) : Bool := 128 ≤ b && b < 192

/-- Strict UTF-8 decoding of a byte list (Python `bytes.decode()`), rejecting
truncated sequences, bad continuation bytes, overlong forms, surrogates and
out-of-range values, as the CPython strict codec does. -/
def utf8DecodeList : List Nat → Except String (List Char)
  | [] => .ok []
  | b :: rest =>
    if b < 128 then
      (utf8DecodeList rest).map (fun cs => Char.ofNat b :: cs)
    else if b < 194 then
      .error "utf-8 codec cannot decode byte: invalid start byte"
    else if b < 224 then
      match rest with
      | b2 :: rest2 =>
        if isCont b2 then
          (utf8DecodeList rest2).map (fun cs => Char.ofNat ((b - 192) * 64 + (b2 - 128)) :: cs)
        else .error "utf-8 codec cannot decode byte: invalid continuation byte"
      | [] => .error "utf-8 codec cannot decode byte: unexpected end of data"
    else if b < 240 then
      match rest with
      | b2 :: b3 :: rest3 =>
        if isCont b2 && isCont b3 &&
            !(b = 224 && b2 < 160) &&      -- overlong three-byte form
            !(b = 237 && 160 ≤ b2) then    -- surrogate range
          (utf8DecodeList rest3).map
            (fun cs => Char.ofNat ((b - 224) * 4096 + (b2 - 128) * 64 + (b3 - 128)) :: cs)
        else .error "utf-8 codec cannot decode byte: invalid continuation byte"
      | _ => .error "utf-8 codec cannot decode byte: unexpected end of data"
    else if b < 245 then
      match rest with
      | b2 :: b3 :: b4 :: rest4 =>
        if isCont b2 && isCont b3 && isCont b4 &&
            !(b = 240 && b2 < 144) &&      -- overlong four-byte form
            !(b = 244 && 144 ≤ b2) then    -- beyond U+10FFFF
          (utf8DecodeList rest4).map
            (fun cs =>
              Char.ofNat ((b - 240) * 262144 + (b2 - 128) * 4096 + (b3 - 128) * 64 + (b4 - 128)) :: cs)
        else .error "utf-8 codec cannot decode byte: invalid continuation byte"
      | _ => .error "utf-8 codec cannot decode byte: unexpected end of data"
    else
      .error "utf-8 codec cannot decode byte: invalid start byte"

/-- `b64decode(arg.encode()).decode()` from `cli_args.py`: encode the argument
to UTF-8 bytes, base64-decode them, then UTF-8-decode the result; either
decoding step raises (is an `error`). -/
def decodeArg (arg : String) : Except String String := do
  let bytes ← b64decodeBytes (utf8Encode arg)
  let chars ← utf8DecodeList bytes
  return String.mk chars

/-! ## `pr_insight/algo/cli_args.py`: CliArgs.validate_user_args (C2, C8) -/

/-- Body of the `try:` block of `CliArgs.validate_user_args`.

Source (`pr_insight/algo/cli_args.py` lines 7-30): after the empty-list early
return, the code builds `_encoded_args = [b64decode(arg.encode()).decode() for
arg in args]`, a Python *list*, and immediately evaluates
`_encoded_args.split(':')`.  A list has no `split` attribute, so this raises
`AttributeError("'list' object has no attribute 'split'")` unconditionally;
the deny-list construction and the loop over `args` below it are unreachable. -/
def validate_user_args_body (args : List String) : Except String (Bool × String) :=
  if args.isEmpty then
    .ok (true, "")
  else do
    let _encoded_args ← args.mapM decodeArg
    .error "'list' object has no attribute 'split'"

/-- `CliArgs.validate_user_args`: the whole body runs under
`try: ... except Exception as e: return False, str(e)`. -/
def validate_user_args (args : List String) : Bool × String :=
  match validate_user_args_body args with
  | .ok r => r
  | .error e => (false, e)

/-! ## `pr_insight/cli.py`: run (C9) -/

/-- The fields of the parsed `argparse.Namespace` used by `run`
(`--pr_url` and `--issue_url` default to `None`). -/
structure CliNamespace where
  pr_url : Option String
  issue_url : Option String
  command : String
  rest : List String

/-- URL-selection and dispatch logic of `run` in `pr_insight/cli.py`
(lines 235-277): if both URL flags are falsy, help is printed and nothing runs
(`none`); otherwise the command is lower-cased and `inner` dispatches
`handle_request(args.issue_url, [command] + args.rest)` when `args.issue_url`
is truthy, else `handle_request(args.pr_url, ...)`.  The result is the
`(url, argument list)` pair handed to `PRInsight.handle_request`. -/
def cli_run_dispatch (args : CliNamespace) : Option (String × List String) :=
  if !truthyOpt args.pr_url && !truthyOpt args.issue_url then
    none
  else
    let command := pyLower args.command
    if truthyOpt args.issue_url then
      some (args.issue_url.getD "", command :: args.rest)
    else
      some (args.pr_url.getD "", command :: args.rest)

/-! ## `pr_insight/tools/pr_reviewer.py`: PRReviewer._can_run_incremental_review (C6) -/

/-- Inputs read by `PRReviewer._can_run_incremental_review` (lines 443-485):
tool state, provider capability, the two configured thresholds, and the
timestamps involved in the recency comparison (represented as integers,
`minimal_minutes` already converted to the same unit as the timestamps). -/
structure IncrementalReviewEnv where
  is_auto : Bool
  first_new_commit_sha : Option String
  provider_has_get_incremental_commits : Bool
  num_new_commits : Nat
  minimal_commits : Nat
  has_last_seen_commit : Bool
  last_commit_date : Int
  now : Int
  minimal_minutes : Int
  require_all_thresholds : Bool

/-- `PRReviewer._can_run_incremental_review`: auto-mode-without-new-commits and
missing provider support return `False`; then `not_enough_commits` and
`too_recent` are computed and combined by `condition = any if
require_all_thresholds_for_incremental_review else all`; if
`condition((not_enough_commits, too_recent))` holds the review is skipped. -/
def can_run_incremental_review (e : IncrementalReviewEnv) : Bool :=
  if e.is_auto && !truthyOpt e.first_new_commit_sha then
    false
  else if !e.provider_has_get_incremental_commits then
    false
  else
    let not_enough_commits := decide (e.num_new_commits < e.minimal_commits)
    let recent_threshold := e.now - e.minimal_minutes
    let too_recent :=
      if e.has_last_seen_commit then decide (e.last_commit_date > recent_threshold) else false
    let condition_holds :=
      if e.require_all_thresholds then
        not_enough_commits || too_recent       -- condition = any
      else
        not_enough_commits && too_recent       -- condition = all
    if condition_holds then false else true

/-! ## `pr_insight/tools/pr_reviewer.py`: PRReviewer.set_review_labels (C7) -/

/-- Settings read by `set_review_labels`. -/
structure ReviewLabelSettings where
  publish_output : Bool
  require_estimate_effort_to_review : Bool
  enable_review_labels_effort : Bool
  require_security_review : Bool
  enable_review_labels_security : Bool

/-- The `data['review']['estimated_effort_to_review_[1-5]']` value: the model
may answer with a string, an integer, or something else entirely. -/
inductive EffortValue where
  | str (s : String)
  | int (n : Int)
  | other
deriving DecidableEq

/-- Python `int(s)` on a string: strips whitespace, accepts an optional sign
followed by at least one decimal digit, otherwise raises `ValueError`
(modelled as `none`; digit-group underscores are not exercised here). -/
def pyInt (s : String) : Option Int :=
  let core := (pyStrip s).toList
  let digitsVal : List Char → Option Nat := fun ds =>
    if ds.isEmpty then none
    else if ds.all Char.isDigit then
      some (ds.foldl (fun acc c => acc * 10 + (c.toNat - 48)) 0)
    else none
  match core with
  | '-' :: ds => (digitsVal ds).map (fun n => -(n : Int))
  | '+' :: ds => (digitsVal ds).map (fun n => (n : Int))
  | ds => (digitsVal ds).map (fun n => (n : Int))

/-- `PRReviewer._parse_effort_value` (lines 538-550): for a string, parse
`int(effort.split(',')[0])`, returning 0 on `ValueError`; pass an int through;
return 0 for any other type. -/
def parse_effort_value : EffortValue → Int
  | .str s =>
    match pyInt (headOrEmpty (pySplit s ",")) with
    | some n => n
    | none => 0
  | .int n => n
  | .other => 0

/-- The `review_labels` list computed inside `set_review_labels` (lines
502-517), given the effective enable flags already derived from the settings:
an effort label for scores 1..5, then a security label when the security text
contains "yes" or "true" (case-insensitively). -/
def compute_review_labels (st : ReviewLabelSettings) (effort : EffortValue)
    (security_concerns : String) : List String :=
  let enable_effort :=
    if !st.require_estimate_effort_to_review then false else st.enable_review_labels_effort
  let enable_security :=
    if !st.require_security_review then false else st.enable_review_labels_security
  (if enable_effort then
    let effort_num := parse_effort_value effort
    if 1 ≤ effort_num ∧ effort_num ≤ 5 then
      ["Review effort [1-5]: " ++ toString effort_num]
    else []
  else []) ++
  (if enable_security && st.require_security_review then
    if containsSub (pyLower security_concerns) "yes" ||
        containsSub (pyLower security_concerns) "true" then
      ["Possible security concern"]
    else []
  else [])

/-- `filtered_labels` (lines 523-526): the current labels whose lower-cased
form starts with neither label-category prefix. -/
def filter_review_labels (current_labels : List String) : List String :=
  current_labels.filter (fun label =>
    !(pyStartsWith (pyLower label) "review effort [1-5]:" ||
      pyStartsWith (pyLower label) "possible security concern"))

/-- Lexicographic code-point comparison of character lists — the order Python
uses to compare `str` values. -/
def charListLe : List Char → List Char → Bool
  | [], _ => true
  | _ :: _, [] => false
  | a :: as, b :: bs =>
    if a.toNat < b.toNat then true
    else if b.toNat < a.toNat then false
    else charListLe as bs

/-- Python `<=` on strings. -/
def pyStrLe (a b : String) : Bool := charListLe a.toList b.toList

/-- Insert into a sorted list. -/
def insertSorted (s : String) : List String → List String
  | [] => [s]
  | t :: rest => if pyStrLe s t then s :: t :: rest else t :: insertSorted s rest

/-- Python `sorted` on a string list (insertion sort with the lexicographic
code-point order, which is how Python compares `str`). -/
def sortStrings : List String → List String
  | [] => []
  | s :: rest => insertSorted s (sortStrings rest)

/-- The guard of lines 493-500: the settings mutations zero out each enable
flag whose `require_*` counterpart is off, and the method returns early unless
a category remains enabled. -/
def review_labels_enabled (st : ReviewLabelSettings) : Bool :=
  let enable_effort :=
    if !st.require_estimate_effort_to_review then false else st.enable_review_labels_effort
  let enable_security :=
    if !st.require_security_review then false else st.enable_review_labels_security
  enable_security || enable_effort

/-- `PRReviewer.set_review_labels` (lines 487-536): early-outs when publishing
is disabled or both label categories end up disabled; otherwise computes
`new_labels = review_labels + filtered_labels` and calls
`publish_labels(new_labels)` only under
`(current_labels or review_labels) and sorted(new_labels) !=
sorted(current_labels)`.  The return value is `some published` when
`publish_labels` is invoked and `none` when no label update is performed. -/
def set_review_labels (st : ReviewLabelSettings) (effort : EffortValue)
    (security_concerns : String) (current_labels : List String) : Option (List String) :=
  if !st.publish_output then none
  else if !review_labels_enabled st then none
  else
    let review_labels := compute_review_labels st effort security_concerns
    let new_labels := review_labels ++ filter_review_labels current_labels
    if (!current_labels.isEmpty || !review_labels.isEmpty) &&
        sortStrings new_labels ≠ sortStrings current_labels then
      some new_labels
    else
      none

/-! ## `pr_insight/servers/gitlab_webhook.py`: gitlab_webhook (C1) -/

/-- An HTTP `JSONResponse` with body `{"message": message}`. -/
structure HttpResponse where
  status : Nat
  message : String
deriving DecidableEq

/-- The 401 response built in every rejection branch of `inner`. -/
def unauthorizedResponse : HttpResponse := ⟨401, "unauthorized"⟩

/-- The 200 response built in every success branch. -/
def successResponse : HttpResponse := ⟨200, "success"⟩

/-- Environment of one webhook request: the configured secret provider
(`none` when `CONFIG.SECRET_PROVIDER` is unset), the result of
`json.loads(secret)["gitlab_token"]` (`none` when `json.loads` or the key
lookup raises), the static `GITLAB.SHARED_SECRET`, and the
`GITLAB.PERSONAL_ACCESS_TOKEN` currently in the request settings. -/
structure GitlabWebhookEnv where
  secret_provider : Option (String → Option String)
  parse_secret_gitlab_token : String → Option String
  shared_secret : Option String
  personal_access_token : Option String

/-- The static shared-secret branch of `inner` (lines 216-230): when
`GITLAB.SHARED_SECRET` is truthy, compare it to the `X-Gitlab-Token` header
with Python `!=`; when it is not set, return 401. -/
def gitlab_auth_shared (env : GitlabWebhookEnv) (header_token : Option String) :
    Except HttpResponse GitlabWebhookEnv :=
  match env.shared_secret with
  | some secret =>
    if secret ≠ "" then
      if header_token = some secret then .ok env else .error unauthorizedResponse
    else .error unauthorizedResponse
  | none => .error unauthorizedResponse

/-- The token-validation section of `inner` (lines 192-230): when the
`X-Gitlab-Token` header is truthy and a secret provider is configured, resolve
the per-tenant secret (empty/missing secret or a failed `json.loads` → 401),
storing the parsed token in the request settings; otherwise fall back to the
static shared secret.  An `error` is an early 401 return; an `ok` carries the
settings as left by the branch. -/
def gitlab_auth (env : GitlabWebhookEnv) (header_token : Option String) :
    Except HttpResponse GitlabWebhookEnv :=
  match env.secret_provider, header_token with
  | some provider, some request_token =>
    if request_token ≠ "" then
      match provider request_token with
      | none => .error unauthorizedResponse
      | some secret =>
        if secret = "" then .error unauthorizedResponse
        else
          match env.parse_secret_gitlab_token secret with
          | none => .error unauthorizedResponse
          | some gitlab_token =>
            .ok { env with personal_access_token := some gitlab_token }
    else gitlab_auth_shared env header_token
  | _, _ => gitlab_auth_shared env header_token

/-- The background handler `inner` (lines 187-327): after token validation, a
falsy `GITLAB.PERSONAL_ACCESS_TOKEN` returns 401; every return statement of
the remaining event-handling section (bot users, filtered MRs, merge-request,
note, push and fall-through paths) is `200 {"message": "success"}`. -/
def gitlab_inner (env : GitlabWebhookEnv) (header_token : Option String) : HttpResponse :=
  match gitlab_auth env header_token with
  | .error resp => resp
  | .ok env2 =>
    if !truthyOpt env2.personal_access_token then unauthorizedResponse
    else successResponse

/-- What one `POST /webhook` request produces. -/
structure GitlabWebhookOutcome where
  /-- The `JSONResponse` returned by the endpoint to the HTTP caller. -/
  caller_response : HttpResponse
  /-- The return value of the background task `inner`, which
  `background_tasks.add_task` schedules after the response is sent and whose
  value is discarded. -/
  background_response : HttpResponse

/-- The `gitlab_webhook` endpoint (lines 180-336): it schedules
`inner(request_json)` as a background task and immediately returns
`200 {"message": "success"}` to the caller, unconditionally. -/
def gitlab_webhook (env : GitlabWebhookEnv) (header_token : Option String) :
    GitlabWebhookOutcome :=
  { caller_response := successResponse
  , background_response := gitlab_inner env header_token }

/-! ## `pr_insight/tools/pr_config.py`: PRConfig (C3) -/

/-- A Python configuration value as it occurs in the settings dictionaries. -/
inductive ConfigValue where
  | str (s : String)
  | bool (b : Bool)
  | int (n : Int)
deriving DecidableEq

/-- The f-string rendering of `repr(value) if isinstance(value, str) else
value`: strings get Python `repr` (single quotes; the embedded strings contain
no quotes or backslashes), booleans render `True`/`False`, ints their decimal
form. -/
def formatConfigValue : ConfigValue → String
  | .str s => "'" ++ s ++ "'"
  | .bool b => if b then "True" else "False"
  | .int n => toString n

/-- A settings dictionary: ordered sections, each an ordered list of
key/value pairs. -/
abbrev ConfigDict := List (String × List (String × ConfigValue))

/-- `PRConfig._filter_relevant_configs` (lines 82-97): keep the entries of
`get_settings().to_dict()` — the PROCESS-WIDE settings object — whose header
lower-cases to something starting with `pr_` or `config` and also occurs in
`configuration_headers` (the lower-cased keys of the independently loaded
file). -/
def filter_relevant_configs (settings_dict : ConfigDict)
    (configuration_headers : List String) : ConfigDict :=
  settings_dict.filter (fun hc =>
    (pyStartsWith (pyLower hc.1) "pr_" || pyStartsWith (pyLower hc.1) "config") &&
    configuration_headers.contains (pyLower hc.1))

/-- The fixed skip set of `_format_configs_to_markdown` (lines 110-114). -/
def default_skip_keys : List String :=
  ["ai_disclaimer", "ai_disclaimer_title", "ANALYTICS_FOLDER", "secret_provider",
   "skip_keys", "trial_prefix_message", "no_eligible_message", "identity_provider",
   "ALLOWED_REPOS", "APP_NAME"]

/-- `PRConfig._format_configs_to_markdown` (lines 99-133): a collapsible
markdown block; each non-empty header renders a banner line, then one
`header.key = value` line per key not in the skip set (the set is the fixed
list extended by `config.skip_keys`). -/
def format_configs_to_markdown (extra_skip_keys : List String)
    (relevant_configs : ConfigDict) : String :=
  let skip_keys := default_skip_keys ++ extra_skip_keys
  let body := relevant_configs.foldl (fun acc hc =>
    if hc.2.isEmpty then acc
    else
      acc ++ "\n==================== " ++ hc.1 ++ " ====================\n" ++
        hc.2.foldl (fun acc2 kv =>
          if skip_keys.contains kv.1 then acc2
          else acc2 ++ pyLower hc.1 ++ "." ++ pyLower kv.1 ++ " = " ++
            formatConfigValue kv.2 ++ "\n") "") ""
  "<details> <summary><strong>üõ†Ô∏è PR-Insight Configurations:</strong></summary>\n\n" ++
    "```yaml\n" ++ body ++ "```\n</details>\n"

/-- `PRConfig._prepare_pr_configs` (lines 50-80): `conf_file` is the located
`configuration.toml` loaded independently via `Dynaconf` (`none` when
`find_file` returns nothing); only its KEYS feed `configuration_headers`,
while the values rendered come from `filter_relevant_configs` over the
process-wide `settings_dict`. -/
def prepare_pr_configs (conf_file : Option ConfigDict) (settings_dict : ConfigDict)
    (extra_skip_keys : List String) : String :=
  match conf_file with
  | none => ""
  | some conf_settings =>
    let configuration_headers := conf_settings.map (fun p => pyLower p.1)
    let relevant_configs := filter_relevant_configs settings_dict configuration_headers
    if relevant_configs.isEmpty then ""
    else format_configs_to_markdown extra_skip_keys relevant_configs

/-! ## `pr_insight/servers/github_app.py`: handle_push_trigger_for_new_commits (C4)

The duplicate-push suppression protocol of lines 296-336 is modelled as a
per-PR-URL transition system.  `counter` is `_duplicate_push_triggers[api_url]`;
a task that has passed (or skipped) the condition wait is `running`; a task
blocked in `condition.wait()` is `waiting`.  Increment-after-check runs without
suspension points, so it is one atomic transition of the event loop. -/

/-- Per-URL protocol state. -/
structure PushTriggerState where
  counter : Nat
  running : Nat
  waiting : Nat
deriving DecidableEq

/-- `max_active_tasks = 2 if ...push_trigger_pending_tasks_backlog else 1`. -/
def max_active_tasks (backlog : Bool) : Nat := if backlog then 2 else 1

/-- What became of an arriving push event. -/
inductive PushArrivalOutcome where
  | dropped
  | started
  | waiting
deriving DecidableEq

/-- Arrival of a push event (lines 297-317): read
`current_active_tasks = counter`; drop when it already reaches
`max_active_tasks` (no increment, no work scheduled); otherwise increment the
counter and either block on the condition (when `current_active_tasks == 1`)
or proceed straight to execution. -/
def push_arrive (backlog : Bool) (s : PushTriggerState) :
    PushTriggerState × PushArrivalOutcome :=
  let current_active_tasks := s.counter
  if current_active_tasks ≥ max_active_tasks backlog then
    (s, .dropped)
  else if current_active_tasks = 1 then
    ({ s with counter := s.counter + 1, waiting := s.waiting + 1 }, .waiting)
  else
    ({ s with counter := s.counter + 1, running := s.running + 1 }, .started)

/-- Completion of a running task (the `finally` block, lines 333-336):
`condition.notify(1)` wakes one waiter — which then resumes execution — and
the counter is decremented. -/
def push_finish (s : PushTriggerState) : PushTriggerState :=
  if s.waiting > 0 then
    { counter := s.counter - 1, running := s.running, waiting := s.waiting - 1 }
  else
    { counter := s.counter - 1, running := s.running - 1, waiting := s.waiting }

/-- States reachable for one PR URL under a fixed backlog policy: the fresh
entry (`setdefault(api_url, 0)` with no tasks), arrivals, and completions of
running tasks. -/
inductive PushReachable (backlog : Bool) : PushTriggerState → Prop where
  | init : PushReachable backlog ⟨0, 0, 0⟩
  | arrive {s : PushTriggerState} :
      PushReachable backlog s → PushReachable backlog (push_arrive backlog s).1
  | finish {s : PushTriggerState} :
      PushReachable backlog s → 1 ≤ s.running → PushReachable backlog (push_finish s)

/-! ## `pr_insight/tools/pr_description.py`: replace_code_tags,
count_chars_without_html, insert_br_after_x_chars (C5, C10) -/

/-- One pass of `re.sub('<[^>]+>', '', s)`: each leftmost match — a `<`, at
least one non-`>` character, then `>` — is removed; positions where the regex
does not match are kept and scanning continues one character further.  `fuel`
as in `splitOnListAux`. -/
def stripHtmlTags : Nat → List Char → List Char
  | _, [] => []
  | 0, s => s
  | fuel + 1, c :: rest =>
    if c = '<' then
      let inside := rest.takeWhile (fun d => d ≠ '>')
      if inside.length < rest.length ∧ 1 ≤ inside.length then
        stripHtmlTags fuel (rest.drop (inside.length + 1))
      else
        c :: stripHtmlTags fuel rest
    else
      c :: stripHtmlTags fuel rest

/-- `count_chars_without_html` (lines 967-971): the length of the string with
every `<...>` tag removed (the `'<' not in string` fast path returns the same
count). -/
def count_chars_without_html (s : String) : Nat :=
  if !listContainsSub s.toList ['<'] then s.toList.length
  else (stripHtmlTags s.toList.length s.toList).length

/-- The characters of the opening tag `'<code>'`. -/
def openTagChars : List Char := "<code>".toList

/-- The characters of the closing tag `'</code>'`. -/
def closeTagChars : List Char := "</code>".toList

/-- `''.join(parts)` on character lists. -/
def joinCharParts : List (List Char) → List Char
  | [] => []
  | p :: rest => p ++ joinCharParts rest

/-- The index-parametrised wrapping loop of `replace_code_tags` (lines
1036-1038): `for i in range(1, len(parts), 2): parts[i] = '<code>' + parts[i]
+ '</code>'`. -/
def wrapOddParts (i : Nat) : List (List Char) → List (List Char)
  | [] => []
  | p :: rest =>
    (if i % 2 = 1 then openTagChars ++ p ++ closeTagChars else p) :: wrapOddParts (i + 1) rest

/-- `replace_code_tags` (lines 1032-1039): split on backticks, wrap the
odd-indexed parts in `<code>...</code>`, and join. -/
def replace_code_tags (text : String) : String :=
  let parts := pySplit text "`"
  String.mk (joinCharParts (wrapOddParts 0 (parts.map String.toList)))

/-- State of the word loop of `insert_br_after_x_chars` (lines 1002-1004). -/
structure BrLoopState where
  new_text : List String
  is_inside_code : Bool
  current_length : Nat
deriving DecidableEq

/-- One iteration of the word loop of `insert_br_after_x_chars` (lines
1005-1028): the four structural tokens are `is_saved_word` and skip both the
break check and the length accumulation; a break (`</code><br><code>` inside a
code span, else `<br>`) is inserted before a word that would push the running
count past `x`; `<li>` and `<br>` zero the counter; substring occurrences of
`<code>`/`</code>` toggle `is_inside_code`. -/
def insert_br_process_word (x : Nat) (st : BrLoopState) (word : String) : BrLoopState :=
  let is_saved_word :=
    word == "<code>" || word == "</code>" || word == "<li>" || word == "<br>"
  let len_word := count_chars_without_html word
  let afterBreak :=
    if !is_saved_word && decide (st.current_length + len_word > x) then
      { st with
          new_text := st.new_text ++ [if st.is_inside_code then "</code><br><code>" else "<br>"]
          current_length := 0 }
    else st
  let afterWord := { afterBreak with new_text := afterBreak.new_text ++ [word ++ " "] }
  let afterLen :=
    if !is_saved_word then
      { afterWord with current_length := afterWord.current_length + len_word + 1 }
    else afterWord
  let afterReset :=
    if word == "<li>" || word == "<br>" then { afterLen with current_length := 0 }
    else afterLen
  let inTrue :=
    if containsSub word "<code>" then { afterReset with is_inside_code := true }
    else afterReset
  if containsSub word "</code>" then { inTrue with is_inside_code := false }
  else inTrue

/-- `words[-1] += suffix` on the word list built so far. -/
def appendToLast (suffix : String) : List String → List String
  | [] => []
  | [w] => [w ++ suffix]
  | w :: rest => w :: appendToLast suffix rest

/-- The word-building loop (lines 995-1000): each line contributes
`line.split(' ')`, and every line except the last gets `"<br>"` appended to
its final word. -/
def build_words : List String → List String
  | [] => []
  | [line] => pySplit line " "
  | line :: rest => appendToLast "<br>" (pySplit line " ") ++ build_words rest

/-- `insert_br_after_x_chars(text, x)` (lines 974-1029): no-op below the
visible-character threshold; otherwise backtick spans become
`<code>...</code>`, list markers become `<li>`/`<br><li> `, newlines become
`<br>`, the text is split into words, and the word loop re-joins them with
break insertion; the result is `''.join(new_text).strip()`. -/
def insert_br_after_x_chars (text : String) (x : Nat := 70) : String :=
  if count_chars_without_html text < x then text
  else
    let text := replace_code_tags text
    let text :=
      if pyStartsWith text "- " || pyStartsWith text "* " then
        "<li>" ++ String.mk (text.toList.drop 2)
      else text
    let text := pyReplace (pyReplace text "\n- " "<br><li> ") "\n - " "<br><li> "
    let text := pyReplace (pyReplace text "\n* " "<br><li> ") "\n * " "<br><li> "
    let text := pyReplace text "\n" "<br>"
    let lines := pySplit text "<br>"
    let words := build_words lines
    let final := words.foldl (insert_br_process_word x) ⟨[], false, 0⟩
    pyStrip (String.join final.new_text)

/-- Modelled from the spec: "structural tokens (`<code>`, `</code>`, `<li>`,
`<br>`) never themselves count toward the budget and reset the running counter
when encountered" — a variant of the loop body in which every structural token
resets `current_length` to zero.  Used only to compare the claimed semantics
with the implemented one. -/
def insert_br_process_word_spec (x : Nat) (st : BrLoopState) (word : String) : BrLoopState :=
  let is_saved_word :=
    word == "<code>" || word == "</code>" || word == "<li>" || word == "<br>"
  let len_word := count_chars_without_html word
  let afterBreak :=
    if !is_saved_word && decide (st.current_length + len_word > x) then
      { st with
          new_text := st.new_text ++ [if st.is_inside_code then "</code><br><code>" else "<br>"]
          current_length := 0 }
    else st
  let afterWord := { afterBreak with new_text := afterBreak.new_text ++ [word ++ " "] }
  let afterLen :=
    if !is_saved_word then
      { afterWord with current_length := afterWord.current_length + len_word + 1 }
    else afterWord
  let afterReset :=
    if is_saved_word then { afterLen with current_length := 0 }
    else afterLen
  let inTrue :=
    if containsSub word "<code>" then { afterReset with is_inside_code := true }
    else afterReset
  if containsSub word "</code>" then { inTrue with is_inside_code := false }
  else inTrue

/-- `insert_br_after_x_chars` re-assembled with the spec-mandated loop body
`insert_br_process_word_spec` (same pipeline otherwise). -/
def insert_br_after_x_chars_spec (text : String) (x : Nat := 70) : String :=
  if count_chars_without_html text < x then text
  else
    let text := replace_code_tags text
    let text :=
      if pyStartsWith text "- " || pyStartsWith text "* " then
        "<li>" ++ String.mk (text.toList.drop 2)
      else text
    let text := pyReplace (pyReplace text "\n- " "<br><li> ") "\n - " "<br><li> "
    let text := pyReplace (pyReplace text "\n* " "<br><li> ") "\n * " "<br><li> "
    let text := pyReplace text "\n" "<br>"
    let lines := pySplit text "<br>"
    let words := build_words lines
    let final := words.foldl (insert_br_process_word_spec x) ⟨[], false, 0⟩
    pyStrip (String.join final.new_text)

/-- The four structural tokens of the word loop. -/
def structuralTokens : List String := ["<code>", "</code>", "<li>", "<br>"]

/-! ### Code-tag balance scanner (C10) -/

/-- Scan a character list for literal `<code>`/`</code>` occurrences, left to
right, producing the tag sequence (`true` = opening, `false` = closing); a
recognised tag is consumed whole.  `fuel` as in `splitOnListAux`. -/
def scanCodeTags : Nat → List Char → List Bool
  | _, [] => []
  | 0, _ => []
  | fuel + 1, s@(_ :: rest) =>
    if isPrefixList openTagChars s then
      true :: scanCodeTags fuel (rest.drop 5)
    else if isPrefixList closeTagChars s then
      false :: scanCodeTags fuel (rest.drop 6)
    else
      scanCodeTags fuel rest

/-- The `<code>`/`</code>` tag sequence of a character list. -/
def scanTags (cs : List Char) : List Bool := scanCodeTags cs.length cs

/-- A tag sequence is balanced when it is a sequence of `open, close` pairs:
every opening tag is matched by a following closing tag. -/
def balancedCodeTags : List Bool → Bool
  | [] => true
  | true :: false :: rest => balancedCodeTags rest
  | _ => false

/-- Parity view of `wrapOddParts`: the Boolean records whether the current
index is odd. -/
def wrapPartsB : Bool → List (List Char) → List (List Char)
  | _, [] => []
  | b, p :: rest =>
    (if b then openTagChars ++ p ++ closeTagChars else p) :: wrapPartsB (!b) rest

/-! ## Theorems -/

/-- C2: the claim predicts that a non-empty argument list whose arguments
carry no deny-listed fragment validates as `(True, "")`.  On the code this is
false: for the one-element list `["QQ=="]` (no argument even begins with
`--`), the list comprehension decodes successfully to `["A"]`, after which
`_encoded_args.split(':')` is attempted on a Python list and raises
`AttributeError`; the `except` clause converts this to
`(False, "'list' object has no attribute 'split'")`. -/
theorem validate_user_args_nonempty_always_fails :
    validate_user_args ["QQ=="] = (false, "'list' object has no attribute 'split'") ∧
    validate_user_args ["QQ=="] ≠ (true, "") := by
  constructor
  · rfl
  · decide

/-- C8: `validate_user_args` is total: the empty list yields `(True, "")`, a
body that completes yields its value, and a body that raises any exception
yields `(False, <exception text>)` — nothing propagates past the
`try/except`. -/
theorem validate_user_args_error_handling :
    validate_user_args [] = (true, "") ∧
    (∀ args r, validate_user_args_body args = .ok r → validate_user_args args = r) ∧
    (∀ args e, validate_user_args_body args = .error e →
      validate_user_args args = (false, e)) := by
  refine ⟨rfl, ?_, ?_⟩
  · intro args r h
    simp [validate_user_args, h]
  · intro args e h
    simp [validate_user_args, h]

/-- Witness for C8 at the concrete input `["QQ=="]`, whose body raises the
`AttributeError` of the `.split` call on a list. -/
theorem validate_user_args_error_handling_witness :
    validate_user_args ["QQ=="] = (false, "'list' object has no attribute 'split'") :=
  validate_user_args_error_handling.2.2 ["QQ=="]
    "'list' object has no attribute 'split'" (by rfl)

/-- C9: when both `--pr_url` and `--issue_url` are supplied (truthy), `run`
dispatches with the issue URL — the `if args.issue_url:` branch is taken
first — and the PR URL is ignored. -/
theorem cli_run_issue_url_takes_precedence (args : CliNamespace)
    (hp : truthyOpt args.pr_url = true) (hi : truthyOpt args.issue_url = true) :
    cli_run_dispatch args =
      some (args.issue_url.getD "", pyLower args.command :: args.rest) ∧
    ∀ url rest, cli_run_dispatch args = some (url, rest) → url = args.issue_url.getD "" := by
  unfold cli_run_dispatch
  rw [hp, hi]
  simp

/-- Witness for C9: both URLs supplied; the issue URL is the one dispatched. -/
theorem cli_run_issue_url_takes_precedence_witness :
    cli_run_dispatch ⟨some "PRURL", some "ISSUEURL", "Review", ["--arg"]⟩ =
      some ("ISSUEURL", ["review", "--arg"]) :=
  ((cli_run_issue_url_takes_precedence
      ⟨some "PRURL", some "ISSUEURL", "Review", ["--arg"]⟩
      (by decide) (by decide)).1).trans (by decide)

/-- C6: with the auto-mode and provider-support guards passed, the
incremental review proceeds exactly when both thresholds pass under
`require_all_thresholds_for_incremental_review = True` (the skip condition is
`any`), and when at least one threshold passes under the setting's `False`
default (the skip condition is `all`).  The commit threshold passes when
`minimal_commits ≤ num_new_commits`; the recency threshold passes when there
is no last-seen commit newer than `now - minimal_minutes`. -/
theorem can_run_incremental_review_threshold_policy (e : IncrementalReviewEnv)
    (hauto : e.is_auto = false ∨ truthyOpt e.first_new_commit_sha = true)
    (hsupp : e.provider_has_get_incremental_commits = true) :
    (e.require_all_thresholds = true →
      (can_run_incremental_review e = true ↔
        (e.minimal_commits ≤ e.num_new_commits ∧
          (e.has_last_seen_commit = true →
            e.last_commit_date ≤ e.now - e.minimal_minutes)))) ∧
    (e.require_all_thresholds = false →
      (can_run_incremental_review e = true ↔
        (e.minimal_commits ≤ e.num_new_commits ∨
          (e.has_last_seen_commit = true →
            e.last_commit_date ≤ e.now - e.minimal_minutes)))) := by
  have hguard : (e.is_auto && !truthyOpt e.first_new_commit_sha) = false := by
    rcases hauto with h | h <;> simp [h]
  unfold can_run_incremental_review
  rw [hguard, hsupp]
  simp only [Bool.false_eq_true, if_false, Bool.not_true, if_true]
  constructor <;> intro hreq <;> rw [hreq] <;>
    cases hseen : e.has_last_seen_commit <;> simp [hseen]

/-- Witness for C6: a run with three new commits against a threshold of two
and an old enough last commit passes under the all-must-pass policy. -/
theorem can_run_incremental_review_threshold_policy_witness :
    can_run_incremental_review
      { is_auto := false, first_new_commit_sha := none,
        provider_has_get_incremental_commits := true, num_new_commits := 3,
        minimal_commits := 2, has_last_seen_commit := true, last_commit_date := 0,
        now := 100, minimal_minutes := 10, require_all_thresholds := true } = true :=
  ((can_run_incremental_review_threshold_policy _ (Or.inl rfl) rfl).1 rfl).mpr
    (by constructor
        · decide
        · intro _; decide)

/-- C7: `set_review_labels` keeps every current label outside the two managed
prefixes in any published set, publishes only when the sorted new label list
differs from the sorted current one, and performs no update when the computed
list sorts equal to the current list. -/
theorem set_review_labels_frame (st : ReviewLabelSettings) (effort : EffortValue)
    (security : String) (current : List String) :
    (∀ published, set_review_labels st effort security current = some published →
      (∀ label, label ∈ current →
        (!(pyStartsWith (pyLower label) "review effort [1-5]:" ||
           pyStartsWith (pyLower label) "possible security concern")) = true →
        label ∈ published) ∧
      sortStrings published ≠ sortStrings current) ∧
    (sortStrings (compute_review_labels st effort security ++
        filter_review_labels current) = sortStrings current →
      set_review_labels st effort security current = none) := by
  constructor
  · intro published hpub
    unfold set_review_labels at hpub
    split at hpub
    · exact absurd hpub (by simp)
    · split at hpub
      · exact absurd hpub (by simp)
      · dsimp only at hpub
        split at hpub
        · next hcond =>
          rw [Option.some_inj] at hpub
          subst hpub
          refine ⟨?_, ?_⟩
          · intro label hmem hpred
            refine List.mem_append_right _ ?_
            unfold filter_review_labels
            exact List.mem_filter.mpr ⟨hmem, hpred⟩
          · have h2 := ((Bool.and_eq_true _ _).mp hcond).2
            simpa [decide_eq_true_iff] using h2
        · exact absurd hpub (by simp)
  · intro heq
    unfold set_review_labels
    split
    · rfl
    · split
      · rfl
      · dsimp only
        split
        · next hcond =>
          exfalso
          have h2 := ((Bool.and_eq_true _ _).mp hcond).2
          have h3 : sortStrings (compute_review_labels st effort security ++
              filter_review_labels current) ≠ sortStrings current := by
            simpa [decide_eq_true_iff] using h2
          exact h3 heq
        · rfl

/-- Witness for C7 at a concrete publication: effort 3, no security concern,
one unrelated current label which survives, and a genuinely different label
set. -/
theorem set_review_labels_frame_witness :
    "Bug" ∈ ["Review effort [1-5]: 3", "Bug"] ∧
    sortStrings ["Review effort [1-5]: 3", "Bug"] ≠ sortStrings ["Bug"] := by
  have h := (set_review_labels_frame ⟨true, true, true, true, true⟩ (.int 3)
    "No concerns" ["Bug"]).1 ["Review effort [1-5]: 3", "Bug"] (by decide)
  exact ⟨h.1 "Bug" (by decide) (by decide), h.2⟩

/-- Every early return of the token-validation section is the same
`401 {"message": "unauthorized"}` response. -/
theorem gitlab_auth_error_is_unauthorized (env : GitlabWebhookEnv)
    (tok : Option String) (e : HttpResponse)
    (h : gitlab_auth env tok = .error e) : e = unauthorizedResponse := by
  have hshared : ∀ env2 tok2, gitlab_auth_shared env2 tok2 = .error e →
      e = unauthorizedResponse := by
    intro env2 tok2 hs
    unfold gitlab_auth_shared at hs
    split at hs
    · split at hs
      · split at hs
        · exact absurd hs (by simp)
        · exact (Except.error.injEq _ _).mp hs.symm
      · exact (Except.error.injEq _ _).mp hs.symm
    · exact (Except.error.injEq _ _).mp hs.symm
  unfold gitlab_auth at h
  split at h
  · split at h
    · split at h
      · exact (Except.error.injEq _ _).mp h.symm
      · split at h
        · exact (Except.error.injEq _ _).mp h.symm
        · split at h
          · exact (Except.error.injEq _ _).mp h.symm
          · exact absurd h (by simp)
    · exact hshared _ _ h
  · exact hshared _ _ h

/-- A deployment with no secret provider, no shared secret and no personal
access token configured. -/
def gitlabNoAuthEnv : GitlabWebhookEnv :=
  { secret_provider := none
  , parse_secret_gitlab_token := fun _ => none
  , shared_secret := none
  , personal_access_token := none }

/-- C1 counterexample: a request that fails every authentication check (no
header, no secret provider, no shared secret) still receives
`200 {"message": "success"}` from the endpoint — the 401 is only the
(discarded) result of the background task, so the claim about "the HTTP
response returned to the caller" is false. -/
theorem gitlab_webhook_counterexample :
    gitlab_auth gitlabNoAuthEnv none = .error unauthorizedResponse ∧
    (gitlab_webhook gitlabNoAuthEnv none).caller_response = successResponse ∧
    successResponse ≠ unauthorizedResponse := by
  refine ⟨rfl, rfl, by decide⟩

/-- C1 amended: for every request that fails all authentication checks, the
*background handler* produces `401 {"message": "unauthorized"}` (and that
response is discarded), while the HTTP response returned to the caller is
always `200 {"message": "success"}`. -/
theorem gitlab_webhook_auth_failure (env : GitlabWebhookEnv) (tok : Option String)
    (e : HttpResponse) (h : gitlab_auth env tok = .error e) :
    (gitlab_webhook env tok).background_response = unauthorizedResponse ∧
    (gitlab_webhook env tok).caller_response = successResponse := by
  have he := gitlab_auth_error_is_unauthorized env tok e h
  subst he
  constructor
  · show gitlab_inner env tok = _
    unfold gitlab_inner
    rw [h]
  · rfl

/-- Witness for C1 (amended) at the concrete no-auth environment. -/
theorem gitlab_webhook_auth_failure_witness :
    (gitlab_webhook gitlabNoAuthEnv none).background_response = unauthorizedResponse ∧
    (gitlab_webhook gitlabNoAuthEnv none).caller_response = successResponse :=
  gitlab_webhook_auth_failure gitlabNoAuthEnv none unauthorizedResponse rfl

/-- C3 counterexample: the configuration file says `publish_output = true`,
the process-wide settings carry the runtime override `false`; the rendered
block shows `False` — the value from the runtime settings — not the file's
`True`.  The claim that every displayed value equals the file's value and is
unaffected by runtime overrides is therefore false. -/
theorem prepare_pr_configs_counterexample :
    containsSub
      (prepare_pr_configs (some [("config", [("publish_output", ConfigValue.bool true)])])
        [("config", [("publish_output", ConfigValue.bool false)])] [])
      "config.publish_output = False" = true ∧
    containsSub
      (prepare_pr_configs (some [("config", [("publish_output", ConfigValue.bool true)])])
        [("config", [("publish_output", ConfigValue.bool false)])] [])
      "config.publish_output = True" = false ∧
    formatConfigValue (ConfigValue.bool true) = "True" := by
  refine ⟨by decide, by decide, rfl⟩

/-- C3 amended: the independently loaded `configuration.toml` influences the
output only through its set of section headers — two files with the same
section names render identically — and every rendered entry comes from the
process-wide settings dictionary (`get_settings().to_dict()`), runtime
overrides included. -/
theorem prepare_pr_configs_values_from_runtime_settings
    (f1 f2 runtime : ConfigDict) (extra : List String) (headers : List String)
    (h : f1.map Prod.fst = f2.map Prod.fst) :
    (∀ entry, entry ∈ filter_relevant_configs runtime headers → entry ∈ runtime) ∧
    prepare_pr_configs (some f1) runtime extra = prepare_pr_configs (some f2) runtime extra := by
  constructor
  · intro entry hentry
    exact (List.mem_filter.mp hentry).1
  · unfold prepare_pr_configs
    dsimp only
    have hh : f1.map (fun p => pyLower p.1) = f2.map (fun p => pyLower p.1) := by
      have h2 := congrArg (List.map pyLower) h
      simpa [List.map_map, Function.comp] using h2
    rw [hh]

/-- Witness for C3 (amended): the two file contents of the counterexample
share the header `config`, so the render is identical; and the sole filtered
entry is the runtime one. -/
theorem prepare_pr_configs_values_from_runtime_settings_witness :
    (("config", [("publish_output", ConfigValue.bool false)]) ∈
      ([("config", [("publish_output", ConfigValue.bool false)])] : ConfigDict)) ∧
    prepare_pr_configs (some [("config", [("publish_output", ConfigValue.bool true)])])
        [("config", [("publish_output", ConfigValue.bool false)])] [] =
      prepare_pr_configs (some [("config", [("publish_output", ConfigValue.bool false)])])
        [("config", [("publish_output", ConfigValue.bool false)])] [] := by
  have h := prepare_pr_configs_values_from_runtime_settings
    [("config", [("publish_output", ConfigValue.bool true)])]
    [("config", [("publish_output", ConfigValue.bool false)])]
    [("config", [("publish_output", ConfigValue.bool false)])] []
    ["config"] (by decide)
  exact ⟨h.1 _ (by decide), h.2⟩

/-- The protocol invariant: the counter counts in-flight tasks, at most one
task executes at a time, the counter never exceeds the ceiling, and a waiter
exists only while a task is executing. -/
def pushTriggerInvariant (backlog : Bool) (s : PushTriggerState) : Prop :=
  s.counter = s.running + s.waiting ∧
  s.running ≤ 1 ∧
  s.counter ≤ max_active_tasks backlog ∧
  (0 < s.waiting → s.running = 1)

/-- Every reachable protocol state satisfies the invariant. -/
theorem pushReachable_invariant {backlog : Bool} {s : PushTriggerState}
    (h : PushReachable backlog s) : pushTriggerInvariant backlog s := by
  have hmax : 1 ≤ max_active_tasks backlog := by
    cases backlog <;> simp [max_active_tasks]
  have hmax2 : max_active_tasks backlog ≤ 2 := by
    cases backlog <;> simp [max_active_tasks]
  induction h with
  | init =>
    refine ⟨rfl, by simp, by simp, by simp⟩
  | arrive hs ih =>
    rename_i s'
    obtain ⟨c, r, w⟩ := s'
    obtain ⟨h1, h2, h3, h4⟩ := ih
    simp only [pushTriggerInvariant, push_arrive] at *
    split
    · exact ⟨h1, h2, h3, h4⟩
    · next hge =>
      split
      · next heq1 =>
        simp only at *
        refine ⟨by omega, h2, by omega, ?_⟩
        intro _
        omega
      · next hne1 =>
        simp only at *
        refine ⟨by omega, by omega, by omega, by omega⟩
  | finish hs hrun ih =>
    rename_i s'
    obtain ⟨c, r, w⟩ := s'
    obtain ⟨h1, h2, h3, h4⟩ := ih
    simp only [pushTriggerInvariant, push_finish] at *
    split
    · next hw =>
      simp only at *
      refine ⟨by omega, h2, by omega, fun _ => by omega⟩
    · next hw =>
      simp only at *
      refine ⟨by omega, by omega, by omega, by omega⟩

/-- C4: for every reachable per-URL state — with the ceiling 1, or 2 under the
pending-backlog policy — (1) an event arriving when the counter already equals
the ceiling is dropped with the state unchanged: no task is scheduled and the
counter is not incremented; (2) an event arriving while exactly one task is in
flight (and the ceiling permits) increments the counter and blocks on the
per-URL condition; (3) a completing task decrements the counter and wakes one
waiter, which resumes running; and (4) the number of concurrently executing
runs and the counter never exceed the ceiling. -/
theorem push_trigger_duplicate_suppression (backlog : Bool) (s : PushTriggerState)
    (hreach : PushReachable backlog s) :
    (s.counter = max_active_tasks backlog → push_arrive backlog s = (s, .dropped)) ∧
    (s.counter = 1 → s.counter < max_active_tasks backlog →
      push_arrive backlog s =
        ({ counter := 2, running := s.running, waiting := s.waiting + 1 }, .waiting)) ∧
    (1 ≤ s.running →
      (push_finish s).counter = s.counter - 1 ∧
      (0 < s.waiting →
        (push_finish s).waiting = s.waiting - 1 ∧ (push_finish s).running = s.running)) ∧
    s.running ≤ max_active_tasks backlog ∧
    s.counter ≤ max_active_tasks backlog := by
  have hmax : 1 ≤ max_active_tasks backlog := by
    cases backlog <;> simp [max_active_tasks]
  obtain ⟨h1, h2, h3, h4⟩ := pushReachable_invariant hreach
  obtain ⟨c, r, w⟩ := s
  simp only at h1 h2 h3 h4
  refine ⟨?_, ?_, ?_, by simp only; omega, by simpa using h3⟩
  · intro hc
    simp only at hc
    unfold push_arrive
    simp only
    rw [if_pos (by omega)]
  · intro hc hlt
    simp only at hc hlt
    unfold push_arrive
    simp only
    rw [if_neg (by omega), if_pos (by omega)]
    subst hc
    rfl
  · intro hr
    simp only at hr
    unfold push_finish
    constructor
    · split <;> simp
    · intro hw
      simp only at hw
      rw [if_pos (by simpa using hw)]
      exact ⟨rfl, rfl⟩

/-- Witness for C4: with the backlog policy off (ceiling 1), the reachable
state with one running task drops a second arrival unchanged. -/
theorem push_trigger_duplicate_suppression_witness :
    push_arrive false ⟨1, 1, 0⟩ = (⟨1, 1, 0⟩, .dropped) :=
  (push_trigger_duplicate_suppression false ⟨1, 1, 0⟩
    (PushReachable.arrive PushReachable.init)).1 rfl

/-- C5 counterexample: a standalone `<code>` word leaves the running counter
unchanged rather than resetting it (here 6, not 0), and the full pipeline on a
threshold-exceeding input inserts a break that the claimed reset semantics
would not: the implemented function and the spec-mandated variant produce
different outputs on `"hello ` ++ "`" ++ ` world foo ` ++ "`" ++ ` end"` with
`x = 10`. -/
theorem insert_br_code_tags_do_not_reset_counter :
    (insert_br_process_word 10 ⟨["hello "], false, 6⟩ "<code>").current_length = 6 ∧
    (6 : Nat) ≠ 0 ∧
    insert_br_after_x_chars "hello ` world foo ` end" 10 =
      "hello <code> </code><br><code>world foo </code> <br>end" ∧
    insert_br_after_x_chars_spec "hello ` world foo ` end" 10 =
      "hello <code> world foo </code> end" := by
  refine ⟨by decide, by decide, by decide, by decide⟩

/-- C5 amended: each structural token processed as a word contributes zero to
the running visible-character count and is never preceded by an inserted
break, but only `<li>` and `<br>` reset the counter to zero — `<code>` and
`</code>` leave it unchanged. -/
theorem insert_br_structural_token_behavior (x : Nat) (st : BrLoopState) (word : String)
    (h : word ∈ structuralTokens) :
    (insert_br_process_word x st word).new_text = st.new_text ++ [word ++ " "] ∧
    (insert_br_process_word x st word).current_length =
      (if word = "<li>" ∨ word = "<br>" then 0 else st.current_length) := by
  fin_cases h <;>
    refine ⟨by simp [insert_br_process_word, containsSub, listContainsSub, isPrefixList], ?_⟩ <;>
      simp [insert_br_process_word, containsSub, listContainsSub, isPrefixList]

/-- Witness for C5 (amended) at a concrete loop state: `<li>` contributes
nothing to the output beyond itself and zeroes the counter. -/
theorem insert_br_structural_token_behavior_witness :
    (insert_br_process_word 70 ⟨["w "], false, 5⟩ "<li>").new_text = ["w "] ++ ["<li> "] ∧
    (insert_br_process_word 70 ⟨["w "], false, 5⟩ "<li>").current_length =
      (if "<li>" = "<li>" ∨ "<li>" = "<br>" then 0 else 5) :=
  insert_br_structural_token_behavior 70 ⟨["w "], false, 5⟩ "<li>" (by decide)

/-! ### Substring/prefix lemmas for the C10 balance proof -/

/-- The empty pattern occurs in every list. -/
theorem listContainsSub_nil_pat (s : List Char) : listContainsSub s [] = true := by
  cases s <;> simp [listContainsSub, isPrefixList]

/-- A prefix of `s` is a prefix of `s ++ t`. -/
theorem isPrefixList_append_of {p s : List Char} (t : List Char)
    (h : isPrefixList p s = true) : isPrefixList p (s ++ t) = true := by
  induction p generalizing s with
  | nil => simp [isPrefixList]
  | cons x xs ih =>
    cases s with
    | nil => simp [isPrefixList] at h
    | cons c cs =>
      simp only [isPrefixList, Bool.and_eq_true] at h ⊢
      exact ⟨h.1, ih h.2⟩

/-- Reflexivity of the prefix test. -/
theorem isPrefixList_refl (a : List Char) : isPrefixList a a = true := by
  induction a with
  | nil => rfl
  | cons x xs ih => simp [isPrefixList, ih]

/-- A list is a prefix of itself extended by anything. -/
theorem isPrefixList_append_self (a b : List Char) : isPrefixList a (a ++ b) = true :=
  isPrefixList_append_of b (isPrefixList_refl a)

/-- A prefix is no longer than the list. -/
theorem isPrefixList_length_le {p s : List Char} (h : isPrefixList p s = true) :
    p.length ≤ s.length := by
  induction p generalizing s with
  | nil => simp
  | cons x xs ih =>
    cases s with
    | nil => simp [isPrefixList] at h
    | cons c cs =>
      simp only [isPrefixList, Bool.and_eq_true] at h
      simpa [List.length_cons] using ih h.2

/-- A prefix at least as long as the list equals it. -/
theorem isPrefixList_eq_of_length_ge {p s : List Char} (h : isPrefixList p s = true)
    (hlen : s.length ≤ p.length) : p = s := by
  induction p generalizing s with
  | nil =>
    cases s with
    | nil => rfl
    | cons c cs => simp at hlen
  | cons x xs ih =>
    cases s with
    | nil => simp [isPrefixList] at h
    | cons c cs =>
      simp only [isPrefixList, Bool.and_eq_true, beq_iff_eq] at h
      simp only [List.length_cons, Nat.add_le_add_iff_right] at hlen
      rw [h.1, ih h.2 hlen]

/-- Two prefixes of one list are comparable: the shorter is a prefix of the
longer. -/
theorem isPrefixList_of_prefix_prefix {a b s : List Char} (ha : isPrefixList a s = true)
    (hb : isPrefixList b s = true) (hlen : a.length ≤ b.length) :
    isPrefixList a b = true := by
  induction a generalizing b s with
  | nil => simp [isPrefixList]
  | cons x xs ih =>
    cases b with
    | nil => simp at hlen
    | cons y ys =>
      cases s with
      | nil => simp [isPrefixList] at ha
      | cons c cs =>
        simp only [isPrefixList, Bool.and_eq_true, beq_iff_eq] at ha hb ⊢
        simp only [List.length_cons, Nat.add_le_add_iff_right] at hlen
        exact ⟨by rw [ha.1, hb.1], ih ha.2 hb.2 hlen⟩

/-- A pattern that is a prefix of `s` occurs in `s`. -/
theorem listContainsSub_of_isPrefixList {pat s : List Char}
    (h : isPrefixList pat s = true) : listContainsSub s pat = true := by
  cases s with
  | nil =>
    cases pat with
    | nil => rfl
    | cons p ps => simp [isPrefixList] at h
  | cons c cs => simp [listContainsSub, h]

/-- Occurrence in the tail is occurrence in the list. -/
theorem listContainsSub_cons_of {c : Char} {rest pat : List Char}
    (h : listContainsSub rest pat = true) : listContainsSub (c :: rest) pat = true := by
  simp [listContainsSub, h]

/-- Occurrence in `a` is occurrence in `a ++ b`. -/
theorem listContainsSub_append_left {a pat : List Char} (b : List Char)
    (h : listContainsSub a pat = true) : listContainsSub (a ++ b) pat = true := by
  induction a with
  | nil =>
    simp only [listContainsSub] at h
    rw [List.isEmpty_iff] at h
    subst h
    exact listContainsSub_nil_pat b
  | cons c cs ih =>
    simp only [listContainsSub, Bool.or_eq_true] at h
    rcases h with h | h
    · exact Bool.or_eq_true_iff.mpr (Or.inl (isPrefixList_append_of b h))
    · exact listContainsSub_cons_of (ih h)

/-- Occurrence in `b` is occurrence in `a ++ b`. -/
theorem listContainsSub_append_right {b pat : List Char} (a : List Char)
    (h : listContainsSub b pat = true) : listContainsSub (a ++ b) pat = true := by
  induction a with
  | nil => simpa using h
  | cons c cs ih => exact listContainsSub_cons_of ih

/-- No occurrence in the list means none in the tail. -/
theorem not_listContainsSub_tail {c : Char} {rest pat : List Char}
    (h : listContainsSub (c :: rest) pat = false) : listContainsSub rest pat = false := by
  by_contra hne
  rw [← ne_eq, Bool.ne_false_iff] at hne
  rw [listContainsSub_cons_of hne] at h
  exact Bool.true_eq_false.mp h

/-- Occurrence in a drop is occurrence in the list. -/
theorem listContainsSub_of_drop {l pat : List Char} (n : Nat)
    (h : listContainsSub (l.drop n) pat = true) : listContainsSub l pat = true := by
  have := listContainsSub_append_right (l.take n) h
  rwa [List.take_append_drop] at this

/-- A pattern prefixing `a ++ b` either already prefixes `a`, or runs past
`a`: then `a` prefixes the pattern and the pattern's remainder prefixes
`b`. -/
theorem isPrefixList_append_cases {pat a b : List Char}
    (h : isPrefixList pat (a ++ b) = true) :
    isPrefixList pat a = true ∨
    (isPrefixList a pat = true ∧ isPrefixList (pat.drop a.length) b = true) := by
  induction a generalizing pat with
  | nil => exact Or.inr ⟨by simp [isPrefixList], by simpa using h⟩
  | cons c cs ih =>
    cases pat with
    | nil => exact Or.inl (by simp [isPrefixList])
    | cons p ps =>
      simp only [List.cons_append, isPrefixList, Bool.and_eq_true, beq_iff_eq] at h ⊢
      rcases ih h.2 with h2 | ⟨h2a, h2b⟩
      · exact Or.inl ⟨h.1, h2⟩
      · refine Or.inr ⟨⟨h.1.symm, h2a⟩, ?_⟩
        simpa [List.length_cons] using h2b

/-- The concrete characters of the opening tag. -/
theorem openTagChars_eq : openTagChars = ['<', 'c', 'o', 'd', 'e', '>'] := by decide

/-- The concrete characters of the closing tag. -/
theorem closeTagChars_eq : closeTagChars = ['<', '/', 'c', 'o', 'd', 'e', '>'] := by decide

/-- No non-trivial suffix of the opening tag is a prefix of either tag. -/
theorem openTag_drop_no_overlap :
    ∀ k, k < 6 → 1 ≤ k →
      isPrefixList (openTagChars.drop k) openTagChars = false ∧
      isPrefixList (openTagChars.drop k) closeTagChars = false := by decide

/-- No non-trivial suffix of the closing tag is a prefix of either tag. -/
theorem closeTag_drop_no_overlap :
    ∀ k, k < 7 → 1 ≤ k →
      isPrefixList (closeTagChars.drop k) openTagChars = false ∧
      isPrefixList (closeTagChars.drop k) closeTagChars = false := by decide

/-- `scanCodeTags` ignores the exact fuel value as long as it covers the list
length. -/
theorem scanCodeTags_fuel_eq :
    ∀ f1 f2 cs, cs.length ≤ f1 → cs.length ≤ f2 →
      scanCodeTags f1 cs = scanCodeTags f2 cs := by
  intro f1
  induction f1 with
  | zero =>
    intro f2 cs h1 h2
    have : cs = [] := List.eq_nil_of_length_eq_zero (Nat.le_zero.mp h1)
    subst this
    cases f2 <;> rfl
  | succ f ih =>
    intro f2 cs h1 h2
    cases cs with
    | nil => cases f2 <;> rfl
    | cons c rest =>
      cases f2 with
      | zero => simp at h2
      | succ g =>
        simp only [List.length_cons, Nat.add_le_add_iff_right] at h1 h2
        simp only [scanCodeTags]
        have hd5 : (rest.drop 5).length ≤ rest.length := by
          simp [List.length_drop]
        have hd6 : (rest.drop 6).length ≤ rest.length := by
          simp [List.length_drop]
        split
        · rw [ih g (rest.drop 5) (le_trans hd5 h1) (le_trans hd5 h2)]
        · split
          · rw [ih g (rest.drop 6) (le_trans hd6 h1) (le_trans hd6 h2)]
          · exact ih g rest h1 h2

/-- One unfolding step of `scanTags`. -/
theorem scanTags_cons (c : Char) (rest : List Char) :
    scanTags (c :: rest) =
      if isPrefixList openTagChars (c :: rest) then true :: scanTags (rest.drop 5)
      else if isPrefixList closeTagChars (c :: rest) then false :: scanTags (rest.drop 6)
      else scanTags rest := by
  show scanCodeTags (rest.length + 1) (c :: rest) = _
  simp only [scanCodeTags]
  have hd5 : (rest.drop 5).length ≤ rest.length := by simp [List.length_drop]
  have hd6 : (rest.drop 6).length ≤ rest.length := by simp [List.length_drop]
  split
  · rw [scanCodeTags_fuel_eq rest.length (rest.drop 5).length (rest.drop 5) hd5 le_rfl]
    rfl
  · split
    · rw [scanCodeTags_fuel_eq rest.length (rest.drop 6).length (rest.drop 6) hd6 le_rfl]
      rfl
    · rfl

/-- Scanning a string that starts with the opening tag records an opening tag
and continues after it. -/
theorem scanTags_open_cons (q : List Char) :
    scanTags (openTagChars ++ q) = true :: scanTags q := by
  rw [openTagChars_eq]
  simp only [List.cons_append]
  rw [scanTags_cons]
  rw [if_pos]
  · have : (('c' :: 'o' :: 'd' :: 'e' :: '>' :: ([] ++ q)).drop 5) = q := by simp
    rw [this]
  · have h := isPrefixList_append_self openTagChars q
    rw [openTagChars_eq] at h
    simpa using h

/-- Scanning a string that starts with the closing tag records a closing tag
and continues after it. -/
theorem scanTags_close_cons (q : List Char) :
    scanTags (closeTagChars ++ q) = false :: scanTags q := by
  rw [closeTagChars_eq]
  simp only [List.cons_append]
  rw [scanTags_cons]
  rw [if_neg, if_pos]
  · have : (('/' :: 'c' :: 'o' :: 'd' :: 'e' :: '>' :: ([] ++ q)).drop 6) = q := by simp
    rw [this]
  · have h := isPrefixList_append_self closeTagChars q
    rw [closeTagChars_eq] at h
    simpa using h
  · rw [openTagChars_eq]
    simp [isPrefixList]

/-- Continuations produced by the wrapping loop start with a tag (or are
empty). -/
def startsWithTagOrEmpty (q : List Char) : Prop :=
  q = [] ∨ isPrefixList openTagChars q = true ∨ isPrefixList closeTagChars q = true

/-- If the pattern `tag` (one of the two tags) prefixes `p ++ q`, where `p` is
non-empty, contains no tag occurrence, and `q` starts with a tag or is empty,
we reach a contradiction: tags cannot straddle the boundary. -/
theorem no_tag_straddle {p q tag : List Char} (hp : p ≠ [])
    (htag : tag = openTagChars ∨ tag = closeTagChars)
    (hpre : isPrefixList tag (p ++ q) = true)
    (hclean : listContainsSub p tag = false)
    (hq : startsWithTagOrEmpty q) : False := by
  rcases isPrefixList_append_cases hpre with hL | ⟨hR1, hR2⟩
  · rw [listContainsSub_of_isPrefixList hL] at hclean
    exact Bool.true_eq_false.mp hclean
  · -- p is a proper, non-empty prefix of the tag and the tag's remainder
    -- prefixes q
    have hk1 : 1 ≤ p.length := by
      cases p with
      | nil => exact absurd rfl hp
      | cons c cs => simp
    have hklen : p.length ≤ tag.length := isPrefixList_length_le hR1
    by_cases hk : tag.length ≤ p.length
    · -- p equals the whole tag, so p contains the tag
      have hpt : p = tag := isPrefixList_eq_of_length_ge hR1 hk
      rw [hpt, listContainsSub_of_isPrefixList (isPrefixList_refl tag)] at hclean
      exact Bool.true_eq_false.mp hclean
    · push_neg at hk
      have hol : openTagChars.length = 6 := by decide
      have hcl : closeTagChars.length = 7 := by decide
      have htaglen : tag.length ≤ 7 := by
        rcases htag with h | h <;> rw [h] <;> omega
      have hdroplen : (tag.drop p.length).length = tag.length - p.length := by
        simp [List.length_drop]
      rcases hq with hq0 | hqO | hqC
      · -- q empty: a non-empty list cannot prefix []
        subst hq0
        cases hv : tag.drop p.length with
        | nil =>
          have := congrArg List.length hv
          rw [hdroplen] at this
          simp at this
          omega
        | cons d ds =>
          rw [hv] at hR2
          simp [isPrefixList] at hR2
      · -- q starts with the opening tag: the tag's suffix would prefix it
        have hlen2 : (tag.drop p.length).length ≤ openTagChars.length := by
          rw [hdroplen, hol]; omega
        have hcmp := isPrefixList_of_prefix_prefix hR2 hqO hlen2
        rcases htag with h | h <;> subst h
        · have hk6 : p.length < 6 := by omega
          rw [(openTag_drop_no_overlap p.length hk6 hk1).1] at hcmp
          exact Bool.false_ne_true hcmp
        · have hk7 : p.length < 7 := by omega
          rw [(closeTag_drop_no_overlap p.length hk7 hk1).1] at hcmp
          exact Bool.false_ne_true hcmp
      · -- q starts with the closing tag
        have hlen2 : (tag.drop p.length).length ≤ closeTagChars.length := by
          rw [hdroplen, hcl]; omega
        have hcmp := isPrefixList_of_prefix_prefix hR2 hqC hlen2
        rcases htag with h | h <;> subst h
        · have hk6 : p.length < 6 := by omega
          rw [(openTag_drop_no_overlap p.length hk6 hk1).2] at hcmp
          exact Bool.false_ne_true hcmp
        · have hk7 : p.length < 7 := by omega
          rw [(closeTag_drop_no_overlap p.length hk7 hk1).2] at hcmp
          exact Bool.false_ne_true hcmp

/-- Scanning skips over a tag-free block when what follows starts with a tag
(or is empty): no tag occurrence can straddle the boundary. -/
theorem scanTags_clean_append (p q : List Char)
    (hopen : listContainsSub p openTagChars = false)
    (hclose : listContainsSub p closeTagChars = false)
    (hq : startsWithTagOrEmpty q) :
    scanTags (p ++ q) = scanTags q := by
  induction p with
  | nil => rfl
  | cons c p' ih =>
    rw [List.cons_append, scanTags_cons]
    rw [if_neg, if_neg]
    · exact ih (not_listContainsSub_tail hopen) (not_listContainsSub_tail hclose)
    · intro habs
      exact no_tag_straddle (List.cons_ne_nil c p') (Or.inr rfl)
        (by simpa using habs) hclose hq
    · intro habs
      exact no_tag_straddle (List.cons_ne_nil c p') (Or.inl rfl)
        (by simpa using habs) hopen hq

/-- Every piece produced by the split loop is a contiguous block of the input
`acc.reverse ++ s`, so a pattern absent from the input is absent from every
piece. -/
theorem splitOnListAux_pieces_clean (p0 : Char) (ps pat : List Char) :
    ∀ fuel s acc, listContainsSub (acc.reverse ++ s) pat = false →
      ∀ piece ∈ splitOnListAux p0 ps fuel s acc, listContainsSub piece pat = false := by
  intro fuel
  induction fuel with
  | zero =>
    intro s acc h piece hmem
    cases s with
    | nil =>
      simp only [splitOnListAux, List.mem_singleton] at hmem
      subst hmem
      simpa using h
    | cons c rest =>
      simp only [splitOnListAux, List.mem_singleton] at hmem
      subst hmem
      exact h
  | succ fuel ih =>
    intro s acc h piece hmem
    cases s with
    | nil =>
      simp only [splitOnListAux, List.mem_singleton] at hmem
      subst hmem
      simpa using h
    | cons c rest =>
      simp only [splitOnListAux] at hmem
      split at hmem
      · rcases List.mem_cons.mp hmem with hmem | hmem
        · subst hmem
          by_contra habs
          rw [← ne_eq, Bool.ne_false_iff] at habs
          rw [listContainsSub_append_left (c :: rest) habs] at h
          exact Bool.true_eq_false.mp h
        · refine ih (rest.drop ps.length) [] ?_ piece hmem
          simp only [List.reverse_nil, List.nil_append]
          by_contra habs
          rw [← ne_eq, Bool.ne_false_iff] at habs
          have h1 := listContainsSub_of_drop ps.length habs
          have h2 := listContainsSub_cons_of (c := c) h1
          rw [listContainsSub_append_right acc.reverse h2] at h
          exact Bool.true_eq_false.mp h
      · refine ih rest (c :: acc) ?_ piece hmem
        rw [List.reverse_cons, List.append_assoc]
        simpa using h

/-- Pieces of a Python `split` never contain a pattern absent from the whole
string. -/
theorem pySplit_pieces_clean (s sep pat : String)
    (h : containsSub s pat = false) :
    ∀ piece ∈ pySplit s sep, containsSub piece pat = false := by
  intro piece hmem
  unfold pySplit at hmem
  split at hmem
  · simp only [List.mem_singleton] at hmem
    subst hmem
    exact h
  · simp only [List.mem_map] at hmem
    obtain ⟨cs, hcs, hmk⟩ := hmem
    subst hmk
    show listContainsSub (String.mk cs).toList pat.toList = false
    have : (String.mk cs).toList = cs := rfl
    rw [this]
    exact splitOnListAux_pieces_clean _ _ pat.toList s.toList.length s.toList []
      (by simpa using h) cs hcs

/-- The index-based wrapping loop only depends on the parity of the index. -/
theorem wrapOddParts_eq_wrapPartsB :
    ∀ parts i, wrapOddParts i parts = wrapPartsB (decide (i % 2 = 1)) parts := by
  intro parts
  induction parts with
  | nil => intro i; rfl
  | cons p rest ih =>
    intro i
    simp only [wrapOddParts, wrapPartsB, ih (i + 1)]
    by_cases h : i % 2 = 1
    · have h2 : (i + 1) % 2 = 0 := by omega
      simp [h, h2]
    · have h2 : (i + 1) % 2 = 1 := by omega
      simp [h, h2]

/-- The joined odd-parity wrapping is empty or starts with the opening tag. -/
theorem joinWrap_true_shape (rest : List (List Char)) :
    startsWithTagOrEmpty (joinCharParts (wrapPartsB true rest)) := by
  cases rest with
  | nil => exact Or.inl rfl
  | cons r rest' =>
    refine Or.inr (Or.inl ?_)
    show isPrefixList openTagChars
      ((openTagChars ++ r ++ closeTagChars) ++ joinCharParts (wrapPartsB false rest')) = true
    rw [List.append_assoc, List.append_assoc]
    exact isPrefixList_append_self openTagChars _

/-- Main induction for C10: joining the alternately wrapped tag-free parts
yields a balanced tag sequence, whichever parity the wrap starts at. -/
theorem balanced_scan_wrapPartsB (parts : List (List Char))
    (hclean : ∀ p ∈ parts,
      listContainsSub p openTagChars = false ∧ listContainsSub p closeTagChars = false) :
    balancedCodeTags (scanTags (joinCharParts (wrapPartsB false parts))) = true ∧
    balancedCodeTags (scanTags (joinCharParts (wrapPartsB true parts))) = true := by
  induction parts with
  | nil => exact ⟨rfl, rfl⟩
  | cons p rest ih =>
    have hp := hclean p (List.mem_cons_self p rest)
    have hrest := fun x hx => hclean x (List.mem_cons_of_mem p hx)
    obtain ⟨ihF, ihT⟩ := ih hrest
    constructor
    · show balancedCodeTags
        (scanTags (p ++ joinCharParts (wrapPartsB true rest))) = true
      rw [scanTags_clean_append p _ hp.1 hp.2 (joinWrap_true_shape rest)]
      exact ihT
    · show balancedCodeTags
        (scanTags ((openTagChars ++ p ++ closeTagChars) ++
          joinCharParts (wrapPartsB false rest))) = true
      rw [List.append_assoc, List.append_assoc, scanTags_open_cons]
      rw [scanTags_clean_append p _ hp.1 hp.2
        (Or.inr (Or.inr (isPrefixList_append_self closeTagChars _)))]
      rw [scanTags_close_cons]
      show balancedCodeTags (true :: false ::
        scanTags (joinCharParts (wrapPartsB false rest))) = true
      simpa [balancedCodeTags] using ihF

/-- C10 counterexample: the claim quantifies over every input string, but an
input that already carries a literal `<code>` (and no backticks) passes
through unchanged, leaving an unmatched opening tag in the output. -/
theorem replace_code_tags_counterexample :
    replace_code_tags "<code>" = "<code>" ∧
    balancedCodeTags (scanTags (replace_code_tags "<code>").toList) = false := by
  refine ⟨by decide, by decide⟩

/-- C10 amended: for every input string with no pre-existing literal `<code>`
or `</code>` occurrence — in particular for inputs with an odd number of
backticks — the output of `replace_code_tags` has balanced code-span tags:
its tag sequence is a run of matched open/close pairs, so every emitted
`<code>` is matched by a following `</code>`. -/
theorem replace_code_tags_balanced (s : String)
    (hopen : containsSub s "<code>" = false)
    (hclose : containsSub s "</code>" = false) :
    balancedCodeTags (scanTags (replace_code_tags s).toList) = true := by
  unfold replace_code_tags
  have hlist : ∀ p ∈ (pySplit s "`").map String.toList,
      listContainsSub p openTagChars = false ∧ listContainsSub p closeTagChars = false := by
    intro p hp
    simp only [List.mem_map] at hp
    obtain ⟨piece, hpiece, htl⟩ := hp
    subst htl
    exact ⟨pySplit_pieces_clean s "`" "<code>" hopen piece hpiece,
           pySplit_pieces_clean s "`" "</code>" hclose piece hpiece⟩
  have hmk : (String.mk (joinCharParts (wrapOddParts 0 ((pySplit s "`").map String.toList)))).toList
      = joinCharParts (wrapOddParts 0 ((pySplit s "`").map String.toList)) := rfl
  rw [hmk, wrapOddParts_eq_wrapPartsB]
  exact (balanced_scan_wrapPartsB _ hlist).1

/-- Witness for C10 (amended) at a concrete input with an odd number of
backticks. -/
theorem replace_code_tags_balanced_witness :
    balancedCodeTags (scanTags (replace_code_tags "a`b`c`d").toList) = true :=
  replace_code_tags_balanced "a`b`c`d" (by decide) (by decide)

end PrInsight
